import Mathlib

/-!
Verification development for the chess_engine_player repository.

The move-legality library (the `chess` crate) is an external collaborator:
it is modelled as an abstract structure `ChessLib` over an opaque board
type, exposing exactly the primitives the core calls.  Everything else is
a direct shallow embedding of `src/game.rs`, `src/engine.rs` and the
load-position path of `src/main.rs`.

Rust `panic!`/`unwrap` failures are modelled by `Option`: a `none` result
of an operation means the original program aborts.  Machine-integer casts
(`char as u8`, wrapping `u8` subtraction) are modelled with explicit
`% 256` arithmetic on `Nat`.
-/

namespace ChessPlayer

/-- Piece kinds of the chess crate (`chess::Piece`). -/
inductive Piece where
  | Pawn
  | Knight
  | Bishop
  | Rook
  | Queen
  | King
deriving DecidableEq, Repr

/-- Side colors (`chess::Color`). -/
inductive PColor where
  | White
  | Black
deriving DecidableEq, Repr

/-- A board square, stored as file index (0 = a) and rank index (0 = rank 1),
mirroring `chess::Square` built from `Rank::from_index`/`File::from_index`. -/
structure Square where
  file : Nat
  rank : Nat
deriving DecidableEq, Repr

/-- `chess::ChessMove`: source square, destination square, optional
promotion piece. -/
structure ChessMove where
  source : Square
  dest : Square
  promotion : Option Piece
deriving DecidableEq, Repr

/-- `MoveDetails` from `src/game.rs` (the Rust field `notation` is spelled
`notationText` here because `notation` is a Lean keyword). -/
structure MoveDetails where
  notationText : String
  piece : Piece
  destination : String
  is_capture : Bool
  display_text : String
deriving DecidableEq, Repr

/-- `MoveRecord` from `src/game.rs`. -/
structure MoveRecord where
  move_num : Nat
  white_move : Option MoveDetails
  black_move : Option MoveDetails
deriving DecidableEq, Repr

/-- `PromotionPiece` from `src/game.rs`. -/
inductive PromotionPiece where
  | Queen
  | Rook
  | Bishop
  | Knight
deriving DecidableEq, Repr

/-- The move-legality library interface (the `chess` crate), abstracted over
an opaque board type.  `legalMoves` is `MoveGen::new_legal` (as the list it
enumerates), `makeMoveOpt` is `Game::make_move` (`none` = returned `false`,
no state change), `makeMoveNew` is `Board::make_move_new`, `checkersCount`
is `Board::checkers().popcnt()`, and `fromStrE` is `Board::from_str` with
the error already rendered by its `Debug` format. -/
structure ChessLib (Board : Type) where
  defaultBoard : Board
  legalMoves : Board → List ChessMove
  makeMoveOpt : Board → ChessMove → Option Board
  makeMoveNew : Board → ChessMove → Board
  pieceOn : Board → Square → Option Piece
  colorOn : Board → Square → Option PColor
  sideToMove : Board → PColor
  checkersCount : Board → Nat
  fromStrE : String → Except String Board

/-- The session state `ChessGame` from `src/game.rs`.  The Rust field
`game : chess::Game` only ever exposes `current_position()` /
`side_to_move()` and is rebuilt with `Game::new_with_board`, so it is
embedded as the current board. -/
structure ChessGame (Board : Type) where
  game : Board
  selected_square : Option Square
  possible_moves : List ChessMove
  message : String
  thinking : Bool
  player_color : PColor
  move_history : List ChessMove
  position_history : List Board
  move_records : List MoveRecord
  view_mode : Bool
  view_move_index : Nat
  pending_promotion : Option (Square × Square)
deriving DecidableEq, Repr

/-! ### String helpers shared by the embedding -/

/-- Unicode-whitespace test used by Rust `str::split_whitespace` (the
characters relevant to this program are all ASCII). -/
def is_ws (c : Char) : Bool := c.isWhitespace

/-- Rust `str::split_whitespace` over a character list: maximal runs of
non-whitespace characters, empties skipped.  (Structural one-pass
formulation: a non-whitespace character either starts a fresh token — at
the end of the list or before a whitespace character — or is prepended to
the token the rest of the list starts with.) -/
def split_ws_list : List Char → List (List Char)
  | [] => []
  | c :: cs =>
    if is_ws c then split_ws_list cs
    else
      match cs, split_ws_list cs with
      | [], _ => [[c]]
      | d :: _, tokens =>
        if is_ws d then [c] :: tokens
        else
          match tokens with
          | [] => [[c]]
          | t :: ts => (c :: t) :: ts

/-- Rust `str::split_whitespace` producing strings. -/
def split_whitespace (s : String) : List String :=
  (split_ws_list s.data).map String.mk

/-- Rust `str::len`: the UTF-8 byte length of a string. -/
def utf8Len (s : String) : Nat :=
  s.data.foldl (fun n c => n + c.utf8Size) 0

/-- `(n as u8 + b'a') as char` for a file index. -/
def uci_char_file (n : Nat) : Char := Char.ofNat ((n % 256 + 97) % 256)

/-- `(n as u8 + b'1') as char` for a rank index. -/
def uci_char_rank (n : Nat) : Char := Char.ofNat ((n % 256 + 49) % 256)

/-- A square rendered as its coordinate text, e.g. `e4`. -/
def square_string (sq : Square) : String :=
  String.mk [uci_char_file sq.file, uci_char_rank sq.rank]

/-- The lowercase promotion letter used by the chess crate when displaying
a move (and by the fallback branch of `move_to_details`). -/
def promo_letter_lower (p : Option Piece) : String :=
  match p with
  | some .Queen => "q"
  | some .Rook => "r"
  | some .Bishop => "b"
  | some .Knight => "n"
  | some .Pawn => ""
  | some .King => ""
  | none => ""

/-- `chess::ChessMove`'s `Display`: coordinate move text such as `e2e4` or
`a7a8q`. -/
def move_uci_string (m : ChessMove) : String :=
  square_string m.source ++ square_string m.dest ++ promo_letter_lower m.promotion

/-! ### Notation generation: `ChessGame::move_to_details` (src/game.rs) -/

/-- The defensive fallback of `move_to_details` taken when no piece sits on
the source square: plain coordinate text with capture flag false. -/
def fallback_details (chess_move : ChessMove) : MoveDetails :=
  let dest_str := square_string chess_move.dest
  { notationText := square_string chess_move.source ++ dest_str ++
      promo_letter_lower chess_move.promotion
    piece := Piece.Pawn
    destination := dest_str
    is_capture := false
    display_text := dest_str }

/-- The piece letter used in notation (`Pawn` gets none). -/
def piece_letter (p : Piece) : String :=
  match p with
  | .Pawn => ""
  | .Knight => "N"
  | .Bishop => "B"
  | .Rook => "R"
  | .Queen => "Q"
  | .King => "K"

/-- The destination fragment of the notation: pawn captures show the source
file, other captures an `x`, quiet moves just the destination square. -/
def destination_fragment (piece : Piece) (is_capture : Bool)
    (chess_move : ChessMove) : String :=
  if piece = Piece.Pawn ∧ is_capture then
    String.mk [uci_char_file chess_move.source.file, 'x',
      uci_char_file chess_move.dest.file, uci_char_rank chess_move.dest.rank]
  else
    (if is_capture then "x" else "") ++
      String.mk [uci_char_file chess_move.dest.file, uci_char_rank chess_move.dest.rank]

/-- The `=<Letter>` promotion suffix (uppercase letters; the chess crate
cannot produce King/Pawn promotions, for which the source renders `=`). -/
def promotion_suffix (chess_move : ChessMove) : String :=
  match chess_move.promotion with
  | some p =>
    "=" ++ (match p with
      | .Queen => "Q"
      | .Rook => "R"
      | .Bishop => "B"
      | .Knight => "N"
      | _ => "")
  | none => ""

/-- The check/mate suffix: apply the move, look at the checkers of the
resulting position, and count the opponent's legal replies. -/
def check_suffix {B : Type} (lib : ChessLib B) (board : B)
    (chess_move : ChessMove) : String :=
  let new_board := lib.makeMoveNew board chess_move
  if lib.checkersCount new_board > 0 then
    if (lib.legalMoves new_board).length = 0 then "#" else "+"
  else ""

/-- The same-kind same-color candidate movers collected by the
disambiguation loop of `move_to_details`: legal moves with this move's
destination, a different source, and the mover's piece kind and color on
their source square. -/
def same_piece_candidates {B : Type} (lib : ChessLib B) (board : B)
    (chess_move : ChessMove) (piece : Piece) (side : PColor) : List ChessMove :=
  (lib.legalMoves board).filter (fun m =>
    m.dest == chess_move.dest && m.source != chess_move.source &&
    lib.pieceOn board m.source == some piece &&
    lib.colorOn board m.source == some side)

/-- The disambiguator string computed from the candidate list: empty when
no candidate exists; the source file if no candidate shares it; else the
source rank if no candidate shares it; else both. -/
def disambiguation_string (chess_move : ChessMove)
    (same_piece_moves : List ChessMove) : String :=
  if same_piece_moves.isEmpty then ""
  else if same_piece_moves.all (fun m => m.source.file != chess_move.source.file) then
    String.mk [uci_char_file chess_move.source.file]
  else if same_piece_moves.all (fun m => m.source.rank != chess_move.source.rank) then
    String.mk [uci_char_rank chess_move.source.rank]
  else
    String.mk [uci_char_file chess_move.source.file, uci_char_rank chess_move.source.rank]

/-- `ChessGame::move_to_details` (src/game.rs, lines 456-643).  The `side`
parameter is unused in the source (`_side`) and kept for fidelity. -/
def move_to_details {B : Type} (lib : ChessLib B) (chess_move : ChessMove)
    (board : B) (_side : PColor) : MoveDetails :=
  match lib.pieceOn board chess_move.source with
  | none => fallback_details chess_move
  | some piece =>
    if piece = Piece.King ∧ chess_move.source.file = 4 ∧ chess_move.dest.file = 6 then
      { notationText := "O-O", piece := piece, destination := "O-O",
        is_capture := false, display_text := "O-O" }
    else if piece = Piece.King ∧ chess_move.source.file = 4 ∧ chess_move.dest.file = 2 then
      { notationText := "O-O-O", piece := piece, destination := "O-O-O",
        is_capture := false, display_text := "O-O-O" }
    else
      let is_capture := (lib.pieceOn board chess_move.dest).isSome
      let destination := destination_fragment piece is_capture chess_move
      let disambiguation :=
        if piece ≠ Piece.Pawn ∧ piece ≠ Piece.King then
          disambiguation_string chess_move
            (same_piece_candidates lib board chess_move piece (lib.sideToMove board))
        else ""
      let promotion := promotion_suffix chess_move
      let notation0 := piece_letter piece ++ disambiguation ++ destination ++ promotion
      let display_destination :=
        if piece = Piece.Pawn ∧ is_capture then
          "x" ++ String.mk [uci_char_file chess_move.dest.file,
            uci_char_rank chess_move.dest.rank]
        else destination
      let display0 := disambiguation ++ display_destination ++ promotion
      let suffix := check_suffix lib board chess_move
      { notationText := notation0 ++ suffix
        piece := piece
        destination := destination
        is_capture := is_capture
        display_text := display0 ++ suffix }

/-! ### Game session operations (src/game.rs) -/

namespace ChessGame

/-- `ChessGame::new`. -/
def new {B : Type} (lib : ChessLib B) : ChessGame B :=
  { game := lib.defaultBoard
    selected_square := none
    possible_moves := []
    message := "Welcome to Chess Engine Player! Make a move to begin."
    thinking := false
    player_color := PColor.White
    move_history := []
    position_history := [lib.defaultBoard]
    move_records := []
    view_mode := false
    view_move_index := 0
    pending_promotion := none }

/-- `ChessGame::reset`. -/
def reset {B : Type} (lib : ChessLib B) (s : ChessGame B) : ChessGame B :=
  { s with
    game := lib.defaultBoard
    selected_square := none
    possible_moves := []
    message := "Game reset. Make a move to begin."
    thinking := false
    move_history := []
    position_history := [lib.defaultBoard]
    move_records := []
    view_mode := false
    view_move_index := 0
    pending_promotion := none }

/-- `ChessGame::reset_from_fen`: on a parse error the state is left
untouched (the source only logs to stderr). -/
def reset_from_fen {B : Type} (lib : ChessLib B) (s : ChessGame B)
    (fen : String) (player_color : PColor) : ChessGame B :=
  match lib.fromStrE fen with
  | .ok board =>
    { s with
      game := board
      player_color := player_color
      selected_square := none
      possible_moves := []
      message := "Custom position loaded. Make a move to begin."
      thinking := false
      move_history := []
      position_history := [board]
      move_records := []
      view_mode := false
      view_move_index := 0
      pending_promotion := none }
  | .error _ => s

/-- `ChessGame::current_position`: in view mode indexes `position_history`
(`getD` models the panic-free in-range access guaranteed by the
`view_move_index` invariant). -/
def current_position {B : Type} (s : ChessGame B) : B :=
  if s.view_mode then s.position_history.getD s.view_move_index s.game
  else s.game

/-- `ChessGame::set_view_mode`. -/
def set_view_mode {B : Type} (s : ChessGame B) (enabled : Bool) : ChessGame B :=
  if enabled then { s with view_mode := true }
  else { s with
      view_mode := false,
      view_move_index := s.position_history.length - 1 }

/-- `ChessGame::view_move_at`. -/
def view_move_at {B : Type} (s : ChessGame B) (index : Nat) : ChessGame B :=
  if index < s.position_history.length then
    { s with
      view_move_index := index, view_mode := true,
      selected_square := none, possible_moves := [] }
  else s

/-- `ChessGame::set_player_color`. -/
def set_player_color {B : Type} (s : ChessGame B) (color : PColor) : ChessGame B :=
  { s with
    player_color := color,
    message := "You are playing as " ++
      (if color = PColor.White then "White" else "Black") ++ "." }

/-- `ChessGame::flip_side`. -/
def flip_side {B : Type} (s : ChessGame B) : ChessGame B :=
  let pc := if s.player_color = PColor.White then PColor.Black else PColor.White
  { s with
    player_color := pc,
    message := "You are playing as " ++
      (if pc = PColor.White then "White" else "Black") ++ "." }

/-- `ChessGame::set_thinking`. -/
def set_thinking {B : Type} (s : ChessGame B) (thinking : Bool) : ChessGame B :=
  if thinking then { s with thinking := true, message := "Engine is thinking..." }
  else { s with thinking := false }

/-- `ChessGame::is_pawn_promotion_move`. -/
def is_pawn_promotion_move {B : Type} (lib : ChessLib B)
    (chess_move : ChessMove) (board : B) : Bool :=
  match lib.pieceOn board chess_move.source with
  | some Piece.Pawn =>
    (lib.sideToMove board == PColor.White && chess_move.dest.rank == 7) ||
    (lib.sideToMove board == PColor.Black && chess_move.dest.rank == 0)
  | _ => false

/-- `ChessGame::record_move`: reads the side to move of the *updated* game;
if it is Black a fresh record is appended for White's move, otherwise the
last record (when one exists) gets its `black_move` set. -/
def record_move {B : Type} (lib : ChessLib B) (s : ChessGame B)
    (details : MoveDetails) : ChessGame B :=
  if lib.sideToMove s.game = PColor.Black then
    { s with move_records := s.move_records ++
      [{ move_num := s.move_records.length + 1,
         white_move := some details, black_move := none }] }
  else
    match s.move_records.getLast? with
    | some last_record =>
      { s with move_records := s.move_records.dropLast ++
        [{ last_record with black_move := some details }] }
    | none => s

/-- `ChessGame::update_possible_moves`. -/
def update_possible_moves {B : Type} (lib : ChessLib B) (s : ChessGame B) :
    ChessGame B :=
  match s.selected_square with
  | some square =>
    { s with possible_moves :=
      (lib.legalMoves s.game).filter (fun m => m.source == square) }
  | none => { s with possible_moves := [] }

/-- `ChessGame::select_square` (src/game.rs, lines 203-284). -/
def select_square {B : Type} (lib : ChessLib B) (s : ChessGame B)
    (square : Square) : Bool × ChessGame B :=
  if lib.sideToMove s.game ≠ s.player_color then (false, s)
  else if s.view_mode then (false, s)
  else
    let board := s.game
    match s.selected_square with
    | some _selected =>
      match s.possible_moves.find? (fun m => m.dest == square) with
      | some chess_move =>
        let needs_promotion := chess_move.promotion.isSome ||
          is_pawn_promotion_move lib chess_move board
        if needs_promotion then
          (true, { s with
                     pending_promotion := some (chess_move.source, chess_move.dest),
                     message := "Select promotion piece" })
        else
          let details := move_to_details lib chess_move board PColor.White
          match lib.makeMoveOpt s.game chess_move with
          | some g2 =>
            let s1 := { s with
              game := g2,
              position_history := s.position_history ++ [g2] }
            let s2 := record_move lib s1 details
            (true, { s2 with
              message := "Move: " ++ move_uci_string chess_move,
              selected_square := none,
              possible_moves := [],
              move_history := s.move_history ++ [chess_move],
              view_move_index := s2.position_history.length - 1 })
          | none => (false, s)
      | none =>
        match lib.pieceOn board square with
        | some _piece =>
          if lib.colorOn board square = some (lib.sideToMove board) then
            (false, update_possible_moves lib { s with selected_square := some square })
          else
            (false, { s with selected_square := none, possible_moves := [] })
        | none =>
          (false, { s with selected_square := none, possible_moves := [] })
    | none =>
      match lib.pieceOn board square with
      | some _piece =>
        if lib.colorOn board square = some (lib.sideToMove board) then
          (false, update_possible_moves lib { s with selected_square := some square })
        else (false, s)
      | none => (false, s)

/-- The promotion piece chosen in `ChessGame::promote_pawn`. -/
def chosen_promotion (promotion_piece : PromotionPiece) : Option Piece :=
  match promotion_piece with
  | .Queen => some Piece.Queen
  | .Rook => some Piece.Rook
  | .Bishop => some Piece.Bishop
  | .Knight => some Piece.Knight

/-- `ChessGame::promote_pawn` (src/game.rs, lines 298-323): `take()` clears
the pending promotion up front; a rejected move leaves everything else
unchanged. -/
def promote_pawn {B : Type} (lib : ChessLib B) (s : ChessGame B)
    (promotion_piece : PromotionPiece) : Bool × ChessGame B :=
  match s.pending_promotion with
  | some (fromSq, toSq) =>
    let s0 := { s with pending_promotion := none }
    let chess_move : ChessMove :=
      { source := fromSq, dest := toSq,
        promotion := chosen_promotion promotion_piece }
    let board := s0.game
    let details := move_to_details lib chess_move board PColor.White
    match lib.makeMoveOpt s0.game chess_move with
    | some g2 =>
      let s1 := { s0 with
        game := g2,
        position_history := s0.position_history ++ [g2] }
      let s2 := record_move lib s1 details
      (true, { s2 with
        message := "Move: " ++ move_uci_string chess_move,
        selected_square := none,
        possible_moves := [],
        move_history := s0.move_history ++ [chess_move],
        view_move_index := s2.position_history.length - 1 })
    | none => (false, s0)
  | none => (false, s)

/-- The promotion-letter parse inside `make_engine_move`'s loop:
`uci_move.chars().nth(4).unwrap()` when the byte length is at least 5.
The outer `none` models the panic of `unwrap` when fewer than five
characters exist; the inner option is the parsed promotion piece
(unrecognized letters give `none`). -/
def parse_engine_promotion (uci_move : String) : Option (Option Piece) :=
  if 5 ≤ utf8Len uci_move then
    match uci_move.data[4]? with
    | some c =>
      some (if c = 'q' then some Piece.Queen
        else if c = 'r' then some Piece.Rook
        else if c = 'b' then some Piece.Bishop
        else if c = 'n' then some Piece.Knight
        else none)
    | none => none
  else some none

/-- The successful-commit state built inside `make_engine_move`'s loop:
position pushed, move recorded, message/flags updated. -/
def engine_commit_state {B : Type} (lib : ChessLib B) (s : ChessGame B)
    (uci_move : String) (m : ChessMove) (g2 : B) : ChessGame B :=
  let details := move_to_details lib m s.game (lib.sideToMove s.game)
  let s1 := { s with
    game := g2,
    position_history := s.position_history ++ [g2] }
  let s2 := record_move lib s1 details
  { s2 with
    message := "Engine moved: " ++ uci_move,
    thinking := false,
    move_history := s.move_history ++ [m],
    view_move_index := s2.position_history.length - 1 }

/-- The `for m in move_gen` search of `ChessGame::make_engine_move`: the
first legal move matching source and destination whose promotion passes
`promotion.is_none() || m.get_promotion() == promotion` and whose
application succeeds is committed; a failing candidate lets the loop
continue.  `none` models the promotion-parse panic. -/
def engine_move_loop {B : Type} (lib : ChessLib B) (s : ChessGame B)
    (uci_move : String) (from_square to_square : Square) :
    List ChessMove → Option (Bool × ChessGame B)
  | [] => some (false, s)
  | m :: rest =>
    if m.source = from_square ∧ m.dest = to_square then
      match parse_engine_promotion uci_move with
      | none => none
      | some promotion =>
        if promotion = none ∨ m.promotion = promotion then
          match lib.makeMoveOpt s.game m with
          | some g2 => some (true, engine_commit_state lib s uci_move m g2)
          | none => engine_move_loop lib s uci_move from_square to_square rest
        else engine_move_loop lib s uci_move from_square to_square rest
    else engine_move_loop lib s uci_move from_square to_square rest

/-- `(uci_move.chars().nth(i).unwrap() as u8 - b'a') as usize`: the char is
truncated to its low byte and the subtraction wraps as release-mode `u8`
arithmetic does. -/
def file_index_of_char (c : Char) : Nat := (c.toNat % 256 + 256 - 97) % 256

/-- `(uci_move.chars().nth(i).unwrap() as u8 - b'1') as usize`. -/
def rank_index_of_char (c : Char) : Nat := (c.toNat % 256 + 256 - 49) % 256

/-- `ChessGame::make_engine_move` (src/game.rs, lines 340-400).  The length
guard uses the Rust *byte* length, the coordinate characters are read by
*character* index (`none` models the `unwrap` panic when they are missing),
and the `- b'a'` / `- b'1'` subtractions wrap modulo 256 as release-mode
`u8` arithmetic does. -/
def make_engine_move {B : Type} (lib : ChessLib B) (s : ChessGame B)
    (uci_move : String) : Option (Bool × ChessGame B) :=
  if utf8Len uci_move < 4 then some (false, s)
  else
    match uci_move.data[0]?, uci_move.data[1]?, uci_move.data[2]?, uci_move.data[3]? with
    | some c0, some c1, some c2, some c3 =>
      let from_file := file_index_of_char c0
      let from_rank := rank_index_of_char c1
      let to_file := file_index_of_char c2
      let to_rank := rank_index_of_char c3
      if 8 ≤ from_file ∨ 8 ≤ from_rank ∨ 8 ≤ to_file ∨ 8 ≤ to_rank then
        some (false, s)
      else
        let from_square : Square := { file := from_file, rank := from_rank }
        let to_square : Square := { file := to_file, rank := to_rank }
        engine_move_loop lib s uci_move from_square to_square
          (lib.legalMoves s.game)
    | _, _, _, _ => none

/-- `ChessGame::undo_move_pair` (src/game.rs, lines 402-450).  The final
`position_history.last().unwrap()` is modelled with `getLastD`; every
branch that reaches it has already guaranteed a non-empty history. -/
def undo_move_pair {B : Type} (s : ChessGame B) : ChessGame B :=
  let restore : ChessGame B → ChessGame B := fun t =>
    { t with
      game := t.position_history.getLastD t.game,
      selected_square := none,
      possible_moves := [],
      view_move_index := t.position_history.length - 1 }
  if s.thinking then
    if 1 ≤ s.move_history.length ∧ 2 ≤ s.position_history.length then
      restore { s with
        move_history := s.move_history.dropLast,
        position_history := s.position_history.dropLast,
        move_records := s.move_records.dropLast,
        thinking := false,
        message := "Undid your move." }
    else { s with message := "No moves to undo." }
  else
    if 2 ≤ s.move_history.length ∧ 3 ≤ s.position_history.length then
      restore { s with
        move_history := s.move_history.dropLast.dropLast,
        position_history := s.position_history.dropLast.dropLast,
        move_records := s.move_records.dropLast,
        message := "Undid last move pair." }
    else if 1 ≤ s.move_history.length ∧ 2 ≤ s.position_history.length then
      restore { s with
        move_history := s.move_history.dropLast,
        position_history := s.position_history.dropLast,
        move_records := s.move_records.dropLast,
        message := "Undid last move." }
    else { s with message := "No moves to undo." }

end ChessGame

/-! ### Engine bridge reader (src/engine.rs, lines 65-76) -/

/-- The per-line behavior of the background reader thread: a line whose
text starts with `bestmove` is split on whitespace and, when a second
token exists, that token is pushed onto the delivery channel (`some`);
every other line is ignored (`none`). -/
def process_engine_line (line : String) : Option String :=
  if ("bestmove").data.isPrefixOf line.data then
    let parts := split_whitespace line
    if 2 ≤ parts.length then some (parts.getD 1 "") else none
  else none

/-- Modelled from the spec: the inbound-protocol rule of section 6, a
deterministic matcher for the regular expression `^bestmove\s+(\S+)`
returning capture group 1.  The line must begin with the literal
`bestmove`, followed by at least one whitespace character, followed by at
least one non-whitespace character; the capture is that maximal
non-whitespace run. -/
def bestmove_regex_capture (line : String) : Option String :=
  if ("bestmove").data.isPrefixOf line.data then
    let rest := line.data.drop 8
    let ws := rest.takeWhile (fun c => is_ws c)
    if ws.isEmpty then none
    else
      let tok := (rest.dropWhile (fun c => is_ws c)).takeWhile (fun c => !is_ws c)
      if tok.isEmpty then none else some (String.mk tok)
  else none

/-! ### Load-from-position-string path (src/main.rs) -/

/-- Rust `str::split('/')` over a character list: segments between slashes,
empty segments kept. -/
def split_on_slash : List Char → List (List Char)
  | [] => [[]]
  | c :: cs =>
    if c = '/' then [] :: split_on_slash cs
    else
      match split_on_slash cs with
      | [] => [[c]]
      | t :: ts => (c :: t) :: ts

/-- `safe_parse_board` (src/main.rs, lines 240-263), parameterized by the
library parse `Board::from_str` so that the pre-checks are visibly
independent of it.  The first whitespace token of the position-string must
contain both king letters, and when it has exactly 8 `/`-separated ranks
no pawn letter may appear on the first (rank 8) or last (rank 1) row. -/
def safe_parse_board {B : Type} (libFromStr : String → Except String B)
    (fen : String) : Except String B :=
  let placement := (split_ws_list fen.data).headD []
  if !placement.contains 'K' then .error ("Missing white king (K)")
  else if !placement.contains 'k' then .error ("Missing black king (k)")
  else
    let ranks := split_on_slash placement
    if ranks.length = 8 then
      if (ranks.headD []).contains 'P' || (ranks.headD []).contains 'p' then
        .error ("Pawns cannot be on rank 8")
      else if (ranks.getD 7 []).contains 'P' || (ranks.getD 7 []).contains 'p' then
        .error ("Pawns cannot be on rank 1")
      else libFromStr fen
    else libFromStr fen

/-- The `fen_error` field kept by the setup screen: `rebuild_fen` and
`parse_fen_to_state` (src/main.rs) both set it to the error of
`safe_parse_board` on the current position-string. -/
def fen_error {B : Type} (lib : ChessLib B) (fen : String) : Option String :=
  match safe_parse_board lib.fromStrE fen with
  | .ok _ => none
  | .error e => some e

/-- The `Message::SetupStartGame` handler (src/main.rs, lines 794-809)
restricted to the session state it touches: when `fen_error` is set the
handler returns without touching the game; otherwise it calls
`reset_from_fen`. -/
def setup_start_game {B : Type} (lib : ChessLib B) (fen : String)
    (player_color : PColor) (g : ChessGame B) : ChessGame B :=
  if (fen_error lib fen).isSome then g
  else ChessGame.reset_from_fen lib g fen player_color

/-! ### Operation sequences over the session -/

/-- The player-facing operations of the session state machine, as invoked
by the UI layer. -/
inductive Op where
  | selectSq (sq : Square)
  | promote (pp : PromotionPiece)
  | engineMove (uci : String)
  | undo
  | resetGame
  | resetFen (fen : String) (pc : PColor)
  | setView (enabled : Bool)
  | viewAt (index : Nat)
  | setThink (b : Bool)
  | flipSide
  | setColor (pc : PColor)
deriving DecidableEq, Repr

/-- One operation applied to the session; `none` is an aborted run
(`make_engine_move` can panic on malformed input). -/
def applyOp {B : Type} (lib : ChessLib B) : Op → ChessGame B → Option (ChessGame B)
  | .selectSq sq, s => some (ChessGame.select_square lib s sq).2
  | .promote pp, s => some (ChessGame.promote_pawn lib s pp).2
  | .engineMove uci, s => (ChessGame.make_engine_move lib s uci).map Prod.snd
  | .undo, s => some (ChessGame.undo_move_pair s)
  | .resetGame, s => some (ChessGame.reset lib s)
  | .resetFen fen pc, s => some (ChessGame.reset_from_fen lib s fen pc)
  | .setView b, s => some (ChessGame.set_view_mode s b)
  | .viewAt i, s => some (ChessGame.view_move_at s i)
  | .setThink b, s => some (ChessGame.set_thinking s b)
  | .flipSide, s => some (ChessGame.flip_side s)
  | .setColor pc, s => some (ChessGame.set_player_color s pc)

/-- A sequence of operations run from a starting state, stopping on the
first abort. -/
def runOps {B : Type} (lib : ChessLib B) : List Op → ChessGame B → Option (ChessGame B)
  | [], s => some s
  | op :: rest, s =>
    match applyOp lib op s with
    | some s2 => runOps lib rest s2
    | none => none

/-- The history-length invariant of the session: one position per ply plus
the initial position. -/
def hist_inv {B : Type} (s : ChessGame B) : Prop :=
  s.position_history.length = s.move_history.length + 1

/-! ### Spec-side definitions used to state the claims -/

/-- Modelled from the spec: the disambiguator selection rule of section 4.1
step 6, phrased over the *set* of candidate movers — the source file letter
if no candidate shares the mover's file, else the source rank digit if no
candidate shares the mover's rank, else both. -/
def spec_disambiguator (chess_move : ChessMove) (cands : List ChessMove) : String :=
  if ∀ m ∈ cands, m.source.file ≠ chess_move.source.file then
    String.mk [uci_char_file chess_move.source.file]
  else if ∀ m ∈ cands, m.source.rank ≠ chess_move.source.rank then
    String.mk [uci_char_rank chess_move.source.rank]
  else
    String.mk [uci_char_file chess_move.source.file, uci_char_rank chess_move.source.rank]

/-! ### Concrete library instances used for witnesses and counterexamples -/

/-- A tiny library: board `0` has a single legal rook move a1-a4 leading to
board `1`. -/
def rookLib : ChessLib Nat where
  defaultBoard := 0
  legalMoves := fun b =>
    if b = 0 then [{ source := ⟨0, 0⟩, dest := ⟨0, 3⟩, promotion := none }] else []
  makeMoveOpt := fun b _ => if b = 0 then some 1 else none
  makeMoveNew := fun b _ => b + 1
  pieceOn := fun b sq => if b = 0 ∧ sq = ⟨0, 0⟩ then some Piece.Rook else none
  colorOn := fun b sq => if b = 0 ∧ sq = ⟨0, 0⟩ then some PColor.White else none
  sideToMove := fun b => if b = 0 then PColor.White else PColor.Black
  checkersCount := fun _ => 0
  fromStrE := fun _ => .error "invalid position"

/-- The fresh session over `rookLib`. -/
def rookStart : ChessGame Nat := ChessGame.new rookLib

/-- A library whose only legal move from board `0` is the promotion
a7-a8=Q (the legality library always attaches the promotion piece to
promotion moves). -/
def promoLib : ChessLib Nat where
  defaultBoard := 0
  legalMoves := fun b =>
    if b = 0 then [{ source := ⟨0, 6⟩, dest := ⟨0, 7⟩, promotion := some Piece.Queen }]
    else []
  makeMoveOpt := fun b _ => if b = 0 then some 1 else none
  makeMoveNew := fun b _ => b + 1
  pieceOn := fun b sq => if b = 0 ∧ sq = ⟨0, 6⟩ then some Piece.Pawn else none
  colorOn := fun b sq => if b = 0 ∧ sq = ⟨0, 6⟩ then some PColor.White else none
  sideToMove := fun b => if b = 0 then PColor.White else PColor.Black
  checkersCount := fun _ => 0
  fromStrE := fun _ => .error "invalid position"

/-- The fresh session over `promoLib`. -/
def promoStart : ChessGame Nat := ChessGame.new promoLib

/-- A library where every move application succeeds (`b + 1`) and the side
to move is always White; used to drive a commit from a mid-game state. -/
def commitLib : ChessLib Nat where
  defaultBoard := 0
  legalMoves := fun _ => []
  makeMoveOpt := fun b _ => some (b + 1)
  makeMoveNew := fun b _ => b + 1
  pieceOn := fun _ _ => some Piece.Rook
  colorOn := fun _ _ => some PColor.White
  sideToMove := fun _ => PColor.White
  checkersCount := fun _ => 0
  fromStrE := fun _ => .error "invalid position"

/-- An arbitrary earlier ply. -/
def mv0 : ChessMove := { source := ⟨1, 1⟩, dest := ⟨1, 3⟩, promotion := none }

/-- The move about to be committed in the undo scenarios. -/
def mv1 : ChessMove := { source := ⟨0, 0⟩, dest := ⟨0, 3⟩, promotion := none }

/-- A third ply for the three-ply undo scenario. -/
def mv2 : ChessMove := { source := ⟨2, 0⟩, dest := ⟨2, 2⟩, promotion := none }

/-- Placeholder move details. -/
def dummyDetails : MoveDetails :=
  { notationText := "", piece := Piece.Pawn, destination := "",
    is_capture := false, display_text := "" }

/-- Details standing for the white half of record 1. -/
def detW1 : MoveDetails :=
  { notationText := "w1", piece := Piece.Rook, destination := "w1",
    is_capture := false, display_text := "w1" }

/-- Details standing for the black half of record 1. -/
def detB1 : MoveDetails :=
  { notationText := "b1", piece := Piece.Rook, destination := "b1",
    is_capture := false, display_text := "b1" }

/-- Details standing for the white half of record 2. -/
def detW2 : MoveDetails :=
  { notationText := "w2", piece := Piece.Rook, destination := "w2",
    is_capture := false, display_text := "w2" }

/-- A session with one prior ply, a selected rook and its legal move
prepared, engine idle: the pre-commit state of the undo round-trip
scenario. -/
def preCommitState : ChessGame Nat :=
  { game := 1
    selected_square := some ⟨0, 0⟩
    possible_moves := [mv1]
    message := ""
    thinking := false
    player_color := PColor.White
    move_history := [mv0]
    position_history := [0, 1]
    move_records := [{ move_num := 1, white_move := some dummyDetails, black_move := none }]
    view_mode := false
    view_move_index := 1
    pending_promotion := none }

/-- A session holding three plies (white, black, white) and the matching
records, engine idle: the state exercising the record trimming of a pair
undo. -/
def threePlyState : ChessGame Nat :=
  { game := 3
    selected_square := none
    possible_moves := []
    message := ""
    thinking := false
    player_color := PColor.White
    move_history := [mv0, mv1, mv2]
    position_history := [0, 1, 2, 3]
    move_records := [
      { move_num := 1, white_move := some detW1, black_move := some detB1 },
      { move_num := 2, white_move := some detW2, black_move := none }]
    view_mode := false
    view_move_index := 3
    pending_promotion := none }

/-- A library whose position-string `fenB` parses to board `10` with Black
to move and one legal black move a7-a5. -/
def blackFirstLib : ChessLib Nat where
  defaultBoard := 10
  legalMoves := fun b =>
    if b = 10 then [{ source := ⟨0, 6⟩, dest := ⟨0, 4⟩, promotion := none }] else []
  makeMoveOpt := fun b _ => if b = 10 then some 11 else none
  makeMoveNew := fun b _ => b + 1
  pieceOn := fun b sq => if b = 10 ∧ sq = ⟨0, 6⟩ then some Piece.Pawn else none
  colorOn := fun b sq => if b = 10 ∧ sq = ⟨0, 6⟩ then some PColor.Black else none
  sideToMove := fun b => if b = 10 then PColor.Black else PColor.White
  checkersCount := fun _ => 0
  fromStrE := fun fen => if fen = "fenB" then .ok 10 else .error "bad position"

/-- The session right after loading `fenB`: Black to move first, no
records. -/
def blackFirstState : ChessGame Nat :=
  ChessGame.reset_from_fen blackFirstLib (ChessGame.new blackFirstLib) "fenB" PColor.White

/-- A library with two same-color rooks (a1 and h1) both able to reach d1
from board `0`. -/
def twoRooksLib : ChessLib Nat where
  defaultBoard := 0
  legalMoves := fun b =>
    if b = 0 then
      [{ source := ⟨0, 0⟩, dest := ⟨3, 0⟩, promotion := none },
       { source := ⟨7, 0⟩, dest := ⟨3, 0⟩, promotion := none }]
    else []
  makeMoveOpt := fun b _ => some (b + 1)
  makeMoveNew := fun b _ => b + 1
  pieceOn := fun b sq =>
    if b = 0 ∧ (sq = ⟨0, 0⟩ ∨ sq = ⟨7, 0⟩) then some Piece.Rook else none
  colorOn := fun b sq =>
    if b = 0 ∧ (sq = ⟨0, 0⟩ ∨ sq = ⟨7, 0⟩) then some PColor.White else none
  sideToMove := fun _ => PColor.White
  checkersCount := fun _ => 0
  fromStrE := fun _ => .error "invalid position"

/-- A library rejecting every move application; used to exercise the
failure path of `promote_pawn`. -/
def rejectLib : ChessLib Nat where
  defaultBoard := 0
  legalMoves := fun _ => []
  makeMoveOpt := fun _ _ => none
  makeMoveNew := fun b _ => b
  pieceOn := fun _ _ => none
  colorOn := fun _ _ => none
  sideToMove := fun _ => PColor.White
  checkersCount := fun _ => 0
  fromStrE := fun _ => .error "invalid position"

/-- A fresh `rookLib` session with the rook already selected and its one
legal move prepared, and no prior move. -/
def emptyPriorState : ChessGame Nat :=
  { rookStart with selected_square := some ⟨0, 0⟩, possible_moves := [mv1] }

/-- The state after committing the rook move from `emptyPriorState`. -/
def emptyPriorCommitted : ChessGame Nat :=
  (ChessGame.select_square rookLib emptyPriorState ⟨0, 3⟩).2

/-- A short operation sequence: select the rook, commit its move, undo. -/
def sampleOps : List Op := [Op.selectSq ⟨0, 0⟩, Op.selectSq ⟨0, 3⟩, Op.undo]

/-- The state reached by `sampleOps` from a fresh `rookLib` session. -/
def sampleOpsResult : ChessGame Nat :=
  (runOps rookLib sampleOps (ChessGame.new rookLib)).getD (ChessGame.new rookLib)

/-- The result of feeding the engine move `a1a4` to a fresh `rookLib`
session. -/
def rookEngineResult : Bool × ChessGame Nat :=
  (ChessGame.make_engine_move rookLib rookStart ("a1a4")).getD (false, rookStart)

/-- The result of feeding the engine move `a7a5` to the black-to-move
session. -/
def blackFirstResult : Bool × ChessGame Nat :=
  (ChessGame.make_engine_move blackFirstLib blackFirstState ("a7a5")).getD
    (false, blackFirstState)

/-- A session with a pending promotion a7-a8 over `rejectLib`. -/
def pendingState : ChessGame Nat :=
  { game := 0
    selected_square := none
    possible_moves := []
    message := ""
    thinking := false
    player_color := PColor.White
    move_history := [mv0]
    position_history := [0, 1]
    move_records := [{ move_num := 1, white_move := some dummyDetails, black_move := none }]
    view_mode := false
    view_move_index := 1
    pending_promotion := some (⟨0, 6⟩, ⟨0, 7⟩) }

/-! ### Helper lemmas -/

theorem record_move_game {B : Type} (lib : ChessLib B) (s : ChessGame B)
    (d : MoveDetails) : (ChessGame.record_move lib s d).game = s.game := by
  unfold ChessGame.record_move
  split
  · rfl
  · split <;> rfl

theorem record_move_move_history {B : Type} (lib : ChessLib B) (s : ChessGame B)
    (d : MoveDetails) :
    (ChessGame.record_move lib s d).move_history = s.move_history := by
  unfold ChessGame.record_move
  split
  · rfl
  · split <;> rfl

theorem record_move_position_history {B : Type} (lib : ChessLib B) (s : ChessGame B)
    (d : MoveDetails) :
    (ChessGame.record_move lib s d).position_history = s.position_history := by
  unfold ChessGame.record_move
  split
  · rfl
  · split <;> rfl

theorem record_move_thinking {B : Type} (lib : ChessLib B) (s : ChessGame B)
    (d : MoveDetails) : (ChessGame.record_move lib s d).thinking = s.thinking := by
  unfold ChessGame.record_move
  split
  · rfl
  · split <;> rfl

theorem record_move_records_of_white_empty {B : Type} (lib : ChessLib B)
    (s : ChessGame B) (d : MoveDetails) (hside : lib.sideToMove s.game = PColor.White)
    (hrec : s.move_records = []) :
    (ChessGame.record_move lib s d).move_records = [] := by
  unfold ChessGame.record_move
  rw [hside]
  simp [hrec]

theorem update_possible_moves_keeps {B : Type} (lib : ChessLib B) (s : ChessGame B) :
    (ChessGame.update_possible_moves lib s).move_history = s.move_history ∧
    (ChessGame.update_possible_moves lib s).position_history = s.position_history := by
  unfold ChessGame.update_possible_moves
  split <;> exact ⟨rfl, rfl⟩

theorem engine_commit_state_spec {B : Type} (lib : ChessLib B) (s : ChessGame B)
    (uci : String) (m : ChessMove) (g2 : B) :
    (ChessGame.engine_commit_state lib s uci m g2).game = g2 ∧
    (ChessGame.engine_commit_state lib s uci m g2).move_history
      = s.move_history ++ [m] ∧
    (ChessGame.engine_commit_state lib s uci m g2).position_history
      = s.position_history ++ [g2] ∧
    (ChessGame.engine_commit_state lib s uci m g2).move_records
      = (ChessGame.record_move lib
          { s with game := g2, position_history := s.position_history ++ [g2] }
          (move_to_details lib m s.game (lib.sideToMove s.game))).move_records := by
  refine ⟨?_, rfl, ?_, rfl⟩
  · show (ChessGame.record_move lib _ _).game = g2
    rw [record_move_game]
  · show (ChessGame.record_move lib _ _).position_history = _
    rw [record_move_position_history]

theorem engine_move_loop_false {B : Type} (lib : ChessLib B) (s : ChessGame B)
    (uci : String) (f t : Square) (ms : List ChessMove) (s2 : ChessGame B)
    (h : ChessGame.engine_move_loop lib s uci f t ms = some (false, s2)) :
    s2 = s := by
  induction ms with
  | nil =>
    unfold ChessGame.engine_move_loop at h
    simp only [Option.some.injEq, Prod.mk.injEq] at h
    exact h.2.symm
  | cons m rest ih =>
    unfold ChessGame.engine_move_loop at h
    split at h
    · split at h
      · exact absurd h (by simp)
      · split at h
        · split at h
          · simp only [Option.some.injEq, Prod.mk.injEq] at h
            exact absurd h.1 (by simp)
          · exact ih h
        · exact ih h
    · exact ih h

theorem engine_move_loop_true {B : Type} (lib : ChessLib B) (s : ChessGame B)
    (uci : String) (f t : Square) (ms : List ChessMove) (s2 : ChessGame B)
    (h : ChessGame.engine_move_loop lib s uci f t ms = some (true, s2)) :
    ∃ m ∈ ms, m.source = f ∧ m.dest = t ∧
      ∃ promo, ChessGame.parse_engine_promotion uci = some promo ∧
        (promo = none ∨ m.promotion = promo) ∧
        ∃ g2, lib.makeMoveOpt s.game m = some g2 ∧
          s2 = ChessGame.engine_commit_state lib s uci m g2 := by
  induction ms with
  | nil =>
    unfold ChessGame.engine_move_loop at h
    exact absurd h (by simp)
  | cons m rest ih =>
    unfold ChessGame.engine_move_loop at h
    split at h
    case isTrue hmatch =>
      split at h
      case h_1 => exact absurd h (by simp)
      case h_2 promo hpromo =>
        split at h
        case isTrue hcond =>
          split at h
          case h_1 g2 hg2 =>
            simp only [Option.some.injEq, Prod.mk.injEq, true_and] at h
            exact ⟨m, List.mem_cons_self m rest, hmatch.1, hmatch.2,
              promo, hpromo, hcond, g2, hg2, h.symm⟩
          case h_2 =>
            obtain ⟨m', hm', rest'⟩ := ih h
            exact ⟨m', List.mem_cons_of_mem m hm', rest'⟩
        case isFalse =>
          obtain ⟨m', hm', rest'⟩ := ih h
          exact ⟨m', List.mem_cons_of_mem m hm', rest'⟩
    case isFalse =>
      obtain ⟨m', hm', rest'⟩ := ih h
      exact ⟨m', List.mem_cons_of_mem m hm', rest'⟩

theorem hist_inv_select_square {B : Type} (lib : ChessLib B) (s : ChessGame B)
    (sq : Square) (h : hist_inv s) :
    hist_inv (ChessGame.select_square lib s sq).2 := by
  unfold ChessGame.select_square
  repeat' split
  all_goals dsimp only
  all_goals repeat' split
  all_goals first
    | exact h
    | (unfold hist_inv at h ⊢
       simp only [record_move_position_history, List.length_append, h,
         List.length_cons, List.length_nil])

theorem hist_inv_promote_pawn {B : Type} (lib : ChessLib B) (s : ChessGame B)
    (pp : PromotionPiece) (h : hist_inv s) :
    hist_inv (ChessGame.promote_pawn lib s pp).2 := by
  unfold ChessGame.promote_pawn
  repeat' split
  all_goals dsimp only
  all_goals repeat' split
  all_goals first
    | exact h
    | (unfold hist_inv at h ⊢
       simp only [record_move_position_history, List.length_append, h,
         List.length_cons, List.length_nil])

theorem hist_inv_engine_move_loop {B : Type} (lib : ChessLib B) (s : ChessGame B)
    (uci : String) (f t : Square) (ms : List ChessMove) (r : Bool × ChessGame B)
    (h : hist_inv s) (hr : ChessGame.engine_move_loop lib s uci f t ms = some r) :
    hist_inv r.2 := by
  cases r with
  | mk b s2 =>
    cases b with
    | false =>
      rw [engine_move_loop_false lib s uci f t ms s2 hr]
      exact h
    | true =>
      obtain ⟨m, _, _, _, _, _, _, g2, _, hs2⟩ :=
        engine_move_loop_true lib s uci f t ms s2 hr
      obtain ⟨-, hmh, hph, -⟩ := engine_commit_state_spec lib s uci m g2
      unfold hist_inv at h ⊢
      simp only [hs2, hmh, hph, List.length_append, h,
        List.length_cons, List.length_nil]

theorem hist_inv_make_engine_move {B : Type} (lib : ChessLib B) (s : ChessGame B)
    (uci : String) (r : Bool × ChessGame B) (h : hist_inv s)
    (hr : ChessGame.make_engine_move lib s uci = some r) : hist_inv r.2 := by
  unfold ChessGame.make_engine_move at hr
  split at hr
  · cases hr; exact h
  · split at hr
    · dsimp only at hr
      split at hr
      · cases hr; exact h
      · exact hist_inv_engine_move_loop lib s uci _ _ _ r h hr
    · exact absurd hr (by simp)

theorem hist_inv_undo_move_pair {B : Type} (s : ChessGame B) (h : hist_inv s) :
    hist_inv (ChessGame.undo_move_pair s) := by
  unfold ChessGame.undo_move_pair
  unfold hist_inv at h
  split
  · split
    case isTrue hc =>
      unfold hist_inv
      simp only [List.length_dropLast]
      omega
    case isFalse => exact h
  · split
    case isTrue hc =>
      unfold hist_inv
      simp only [List.length_dropLast]
      omega
    case isFalse =>
      split
      case isTrue hc =>
        unfold hist_inv
        simp only [List.length_dropLast]
        omega
      case isFalse => exact h

theorem hist_inv_applyOp {B : Type} (lib : ChessLib B) (op : Op) (s s2 : ChessGame B)
    (h : hist_inv s) (hr : applyOp lib op s = some s2) : hist_inv s2 := by
  cases op with
  | selectSq sq => cases hr; exact hist_inv_select_square lib s sq h
  | promote pp => cases hr; exact hist_inv_promote_pawn lib s pp h
  | engineMove uci =>
    simp only [applyOp, Option.map_eq_some'] at hr
    obtain ⟨r, hr1, hr2⟩ := hr
    rw [← hr2]
    exact hist_inv_make_engine_move lib s uci r h hr1
  | undo => cases hr; exact hist_inv_undo_move_pair s h
  | resetGame => cases hr; unfold hist_inv ChessGame.reset; simp
  | resetFen fen pc =>
    cases hr
    unfold hist_inv ChessGame.reset_from_fen
    split
    · simp
    · exact h
  | setView b =>
    cases hr
    unfold hist_inv ChessGame.set_view_mode
    split <;> exact h
  | viewAt i =>
    cases hr
    unfold hist_inv ChessGame.view_move_at
    split <;> exact h
  | setThink b =>
    cases hr
    unfold hist_inv ChessGame.set_thinking
    split <;> exact h
  | flipSide => cases hr; exact h
  | setColor pc => cases hr; exact h

theorem hist_inv_runOps {B : Type} (lib : ChessLib B) (ops : List Op)
    (s s2 : ChessGame B) (h : hist_inv s) (hr : runOps lib ops s = some s2) :
    hist_inv s2 := by
  induction ops generalizing s with
  | nil => cases hr; exact h
  | cons op rest ih =>
    unfold runOps at hr
    split at hr
    case h_1 s3 h3 => exact ih s3 (hist_inv_applyOp lib op s s3 h h3) hr
    case h_2 => exact absurd hr (by simp)

/-! ### Claim theorems -/

/-- C8: for all sequences of operations (commits via select_square /
promote_pawn / make_engine_move, undo, reset, load-from-position-string and
view-mode operations), `position_log.length = move_log.length + 1` holds
after every completed operation, starting from a fresh session. -/
theorem c8_theorem {B : Type} (lib : ChessLib B) (ops : List Op) (s : ChessGame B)
    (h : runOps lib ops (ChessGame.new lib) = some s) :
    s.position_history.length = s.move_history.length + 1 := by
  have h0 : hist_inv (ChessGame.new lib) := by
    unfold hist_inv ChessGame.new
    simp
  exact hist_inv_runOps lib ops _ s h0 h

/-- C8 witness: a concrete select-commit-undo run over `rookLib` reaches a
state with `position_log.length = move_log.length + 1`. -/
theorem c8_witness :
    runOps rookLib sampleOps (ChessGame.new rookLib) = some sampleOpsResult ∧
    sampleOpsResult.position_history.length = sampleOpsResult.move_history.length + 1 :=
  ⟨by decide, c8_theorem rookLib sampleOps sampleOpsResult (by decide)⟩

/-- C10: when `promote_pawn` runs with a pending promotion but the
move built from the pending squares and the chosen piece is rejected by
the legality library, it returns `false`, clears the pending promotion,
and leaves everything else — in particular `position_log`, `move_log` and
`move_records` — unchanged. -/
theorem c10_theorem {B : Type} (lib : ChessLib B) (s : ChessGame B)
    (pp : PromotionPiece) (fromSq toSq : Square)
    (hpend : s.pending_promotion = some (fromSq, toSq))
    (hrej : lib.makeMoveOpt s.game
      { source := fromSq, dest := toSq,
        promotion := ChessGame.chosen_promotion pp } = none) :
    ChessGame.promote_pawn lib s pp = (false, { s with pending_promotion := none }) := by
  unfold ChessGame.promote_pawn
  rw [hpend]
  dsimp only
  rw [hrej]

/-- C10 witness: the rejected queen promotion over `rejectLib` returns
`false` with only the pending promotion cleared. -/
theorem c10_witness :
    pendingState.pending_promotion = some (⟨0, 6⟩, ⟨0, 7⟩) ∧
    rejectLib.makeMoveOpt pendingState.game
      { source := ⟨0, 6⟩, dest := ⟨0, 7⟩,
        promotion := ChessGame.chosen_promotion PromotionPiece.Queen } = none ∧
    ChessGame.promote_pawn rejectLib pendingState PromotionPiece.Queen
      = (false, { pendingState with pending_promotion := none }) :=
  ⟨rfl, rfl, c10_theorem rejectLib pendingState PromotionPiece.Queen ⟨0, 6⟩ ⟨0, 7⟩ rfl rfl⟩

/-- C1 counterexample: on a position whose only legal move from a7 to a8
is the promotion a7a8=Q, the 4-character string `a7a8` (no promotion
letter) is nevertheless committed (`make_engine_move` returns `true`),
although no legal move with these squares is non-promoting — so absence of
a promotion letter does *not* match only non-promoting moves. -/
theorem c1_counterexample :
    utf8Len ("a7a8") = 4 ∧
    (ChessGame.make_engine_move promoLib promoStart ("a7a8")).map Prod.fst = some true ∧
    ∀ m ∈ promoLib.legalMoves promoStart.game,
      ¬(m.source = ⟨0, 6⟩ ∧ m.dest = ⟨0, 7⟩ ∧ m.promotion = none) :=
  ⟨by decide, by decide, by decide⟩

/-- C1 (amended): `make_engine_move` commits a move only if some legal
move matches the parsed source/destination squares and passes the
promotion test `promotion.is_none() || m.get_promotion() == promotion` —
i.e. a recognized promotion letter must match the move's promotion
exactly, while the absence of a promotion letter (or an unrecognized
letter) matches *any* move with those squares, including promoting ones;
whenever it returns `false` it makes no state change. -/
theorem c1_amended_theorem {B : Type} (lib : ChessLib B) (s : ChessGame B)
    (uci : String) (r : Bool × ChessGame B)
    (h : ChessGame.make_engine_move lib s uci = some r) :
    (r.1 = true →
      ∃ c0 c1 c2 c3, uci.data[0]? = some c0 ∧ uci.data[1]? = some c1 ∧
        uci.data[2]? = some c2 ∧ uci.data[3]? = some c3 ∧
        ∃ m ∈ lib.legalMoves s.game,
          m.source = Square.mk (ChessGame.file_index_of_char c0)
              (ChessGame.rank_index_of_char c1) ∧
          m.dest = Square.mk (ChessGame.file_index_of_char c2)
              (ChessGame.rank_index_of_char c3) ∧
          ∃ promo, ChessGame.parse_engine_promotion uci = some promo ∧
            (promo = none ∨ m.promotion = promo) ∧
            ∃ g2, lib.makeMoveOpt s.game m = some g2 ∧
              r.2 = ChessGame.engine_commit_state lib s uci m g2) ∧
    (r.1 = false → r.2 = s) := by
  unfold ChessGame.make_engine_move at h
  split at h
  · cases h
    exact ⟨fun h' => absurd h' Bool.false_ne_true, fun _ => rfl⟩
  · split at h
    case h_1 c0 c1 c2 c3 h0 h1 h2 h3 =>
      dsimp only at h
      split at h
      · cases h
        exact ⟨fun h' => absurd h' Bool.false_ne_true, fun _ => rfl⟩
      · obtain ⟨b, s2⟩ := r
        constructor
        · intro htrue
          dsimp only at htrue
          subst htrue
          obtain ⟨m, hm, hsrc, hdst, promo, hpromo, hcond, g2, hg2, hs2⟩ :=
            engine_move_loop_true lib s uci _ _ _ s2 h
          exact ⟨c0, c1, c2, c3, h0, h1, h2, h3, m, hm, hsrc, hdst,
            promo, hpromo, hcond, g2, hg2, hs2⟩
        · intro hfalse
          dsimp only at hfalse
          subst hfalse
          exact engine_move_loop_false lib s uci _ _ _ s2 h
    case h_2 => exact absurd h (by simp)

/-- C1 witness: with the rook library, `a1a4` commits and the committed
move is found among the legal moves with matching squares and promotion
test. -/
theorem c1_witness :
    ChessGame.make_engine_move rookLib rookStart ("a1a4") = some rookEngineResult ∧
    (rookEngineResult.1 = true →
      ∃ c0 c1 c2 c3, ("a1a4").data[0]? = some c0 ∧ ("a1a4").data[1]? = some c1 ∧
        ("a1a4").data[2]? = some c2 ∧ ("a1a4").data[3]? = some c3 ∧
        ∃ m ∈ rookLib.legalMoves rookStart.game,
          m.source = Square.mk (ChessGame.file_index_of_char c0)
              (ChessGame.rank_index_of_char c1) ∧
          m.dest = Square.mk (ChessGame.file_index_of_char c2)
              (ChessGame.rank_index_of_char c3) ∧
          ∃ promo, ChessGame.parse_engine_promotion ("a1a4") = some promo ∧
            (promo = none ∨ m.promotion = promo) ∧
            ∃ g2, rookLib.makeMoveOpt rookStart.game m = some g2 ∧
              rookEngineResult.2 = ChessGame.engine_commit_state rookLib rookStart
                ("a1a4") m g2) ∧
    (rookEngineResult.1 = false → rookEngineResult.2 = rookStart) :=
  ⟨by decide,
    (c1_amended_theorem rookLib rookStart ("a1a4") rookEngineResult (by decide)).1,
    (c1_amended_theorem rookLib rookStart ("a1a4") rookEngineResult (by decide)).2⟩

/-- C4 counterexample: after loading a position-string with Black to move
first, the engine commits Black's move — `move_log` reaches length 1 — yet
`move_records` stays empty: no MoveRecord exists for ply 1, contradicting
the claimed biconditional and the claim that the black half is recorded in
this situation. -/
theorem c4_counterexample :
    ChessGame.make_engine_move blackFirstLib blackFirstState ("a7a5")
      = some blackFirstResult ∧
    blackFirstResult.1 = true ∧
    blackFirstResult.2.move_history.length = 1 ∧
    blackFirstResult.2.move_records = [] :=
  ⟨by decide, by decide, by decide, by decide⟩

/-- C4 (amended): a committed move is recorded only when a record slot is
available: if the side that just moved was white a new record is appended,
and if it was black the `black_move` of the last record is set *when such
a record exists* — but when the game was loaded from a position-string
with black to move first, no record exists, the black move is silently
left unrecorded, and `move_records` stays empty while `move_log` grows. -/
theorem c4_amended_theorem {B : Type} (lib : ChessLib B) (s : ChessGame B)
    (uci : String) (s2 : ChessGame B)
    (h : ChessGame.make_engine_move lib s uci = some (true, s2))
    (hside : lib.sideToMove s2.game = PColor.White)
    (hrec : s.move_records = []) :
    s2.move_records = [] ∧ s2.move_history.length = s.move_history.length + 1 := by
  unfold ChessGame.make_engine_move at h
  split at h
  · exact absurd h (by simp)
  · split at h
    case h_1 c0 c1 c2 c3 h0 h1 h2 h3 =>
      dsimp only at h
      split at h
      · exact absurd h (by simp)
      · obtain ⟨m, hm, hsrc, hdst, promo, hpromo, hcond, g2, hg2, hs2⟩ :=
          engine_move_loop_true lib s uci _ _ _ s2 h
        obtain ⟨hgame, hmh, hph, hrecs⟩ := engine_commit_state_spec lib s uci m g2
        rw [hs2] at hside ⊢
        rw [hgame] at hside
        constructor
        · rw [hrecs]
          exact record_move_records_of_white_empty lib _ _ hside hrec
        · rw [hmh]
          simp
    case h_2 => exact absurd h (by simp)

/-- C4 witness: the amended behavior at the concrete black-first load —
the engine move is committed, `move_records` stays empty, `move_log`
grows to one ply. -/
theorem c4_witness :
    ChessGame.make_engine_move blackFirstLib blackFirstState ("a7a5")
      = some (true, blackFirstResult.2) ∧
    blackFirstLib.sideToMove blackFirstResult.2.game = PColor.White ∧
    blackFirstState.move_records = [] ∧
    (blackFirstResult.2.move_records = [] ∧
      blackFirstResult.2.move_history.length = blackFirstState.move_history.length + 1) :=
  ⟨by decide, by decide, by decide,
    c4_amended_theorem blackFirstLib blackFirstState ("a7a5") blackFirstResult.2
      (by decide) (by decide) (by decide)⟩

/-- C3 counterexample: from three plies (white, black, white) with engine
idle, `undo_move_pair` removes the last two plies but pops only the last
record: the black half `b1` of record 1 is among the undone plies, yet its
`black_move` is retained instead of being cleared. -/
theorem c3_counterexample :
    threePlyState.thinking = false ∧
    (ChessGame.undo_move_pair threePlyState).move_history = [mv0] ∧
    (ChessGame.undo_move_pair threePlyState).move_records
      = [{ move_num := 1, white_move := some detW1, black_move := some detB1 }] :=
  ⟨by decide, by decide, by decide⟩

/-- C3 (amended): with `engine_is_thinking` false, `undo_last` removes the
two most recent plies if at least two exist, else the single most recent
ply if exactly one exists; in *both* cases it removes exactly the last
`move_records` entry wholesale — when the black half of the preceding
record is among the undone plies, that `black_move` is retained, not
cleared. -/
theorem c3_amended_theorem {B : Type} (s : ChessGame B)
    (hthink : s.thinking = false) (hinv : hist_inv s) :
    (2 ≤ s.move_history.length →
      (ChessGame.undo_move_pair s).move_history = s.move_history.dropLast.dropLast ∧
      (ChessGame.undo_move_pair s).position_history
        = s.position_history.dropLast.dropLast ∧
      (ChessGame.undo_move_pair s).move_records = s.move_records.dropLast) ∧
    (s.move_history.length = 1 →
      (ChessGame.undo_move_pair s).move_history = s.move_history.dropLast ∧
      (ChessGame.undo_move_pair s).position_history = s.position_history.dropLast ∧
      (ChessGame.undo_move_pair s).move_records = s.move_records.dropLast) := by
  unfold hist_inv at hinv
  constructor
  · intro hlen
    unfold ChessGame.undo_move_pair
    rw [if_neg (by simp [hthink]), if_pos (by omega)]
    exact ⟨rfl, rfl, rfl⟩
  · intro hlen
    unfold ChessGame.undo_move_pair
    rw [if_neg (by simp [hthink]), if_neg (by omega), if_pos (by omega)]
    exact ⟨rfl, rfl, rfl⟩

/-- C3 witness: the amended behavior at the three-ply state — two plies
and exactly the last record removed. -/
theorem c3_witness :
    threePlyState.thinking = false ∧
    2 ≤ threePlyState.move_history.length ∧
    ((ChessGame.undo_move_pair threePlyState).move_history
        = threePlyState.move_history.dropLast.dropLast ∧
      (ChessGame.undo_move_pair threePlyState).position_history
        = threePlyState.position_history.dropLast.dropLast ∧
      (ChessGame.undo_move_pair threePlyState).move_records
        = threePlyState.move_records.dropLast) :=
  ⟨by decide, by decide,
    (c3_amended_theorem threePlyState (by decide)
      (show threePlyState.position_history.length
          = threePlyState.move_history.length + 1 by decide)).1 (by decide)⟩

theorem select_square_commit {B : Type} (lib : ChessLib B) (s : ChessGame B)
    (sq : Square) (s1 : ChessGame B)
    (h : ChessGame.select_square lib s sq = (true, s1))
    (hpend1 : s1.pending_promotion = none) :
    ∃ m g2, s1.move_history = s.move_history ++ [m] ∧
      s1.position_history = s.position_history ++ [g2] ∧
      s1.thinking = s.thinking := by
  unfold ChessGame.select_square at h
  split at h
  · simp at h
  split at h
  · simp at h
  split at h
  case h_1 sel hsel =>
    split at h
    case h_1 cm hcm =>
      dsimp only at h
      split at h
      case isTrue hneed =>
        injection h with h1 h2
        rw [← h2] at hpend1
        simp at hpend1
      case isFalse hneed =>
        split at h
        case h_1 g2 hg2 =>
          injection h with h1 h2
          refine ⟨cm, g2, ?_, ?_, ?_⟩
          · rw [← h2]
          · rw [← h2]
            exact record_move_position_history lib _ _
          · rw [← h2]
            exact record_move_thinking lib _ _
        case h_2 => simp at h
    case h_2 =>
      dsimp only at h
      split at h
      case h_1 =>
        split at h <;> simp at h
      case h_2 => simp at h
  case h_2 =>
    dsimp only at h
    split at h
    case h_1 =>
      split at h <;> simp at h
    case h_2 => simp at h

/-- C2 counterexample: from a state with engine idle and exactly one prior
move, committing via `select_square` and then undoing does *not* restore
the logs: `undo_move_pair` takes the two-ply branch and removes the prior
move as well, leaving `move_log = []` and `position_log = [0]` instead of
the pre-commit `[mv0]` and `[0, 1]`. -/
theorem c2_counterexample :
    preCommitState.thinking = false ∧
    preCommitState.move_history = [mv0] ∧
    preCommitState.position_history = [0, 1] ∧
    (ChessGame.select_square commitLib preCommitState ⟨0, 3⟩).1 = true ∧
    (ChessGame.select_square commitLib preCommitState ⟨0, 3⟩).2.pending_promotion
      = none ∧
    (ChessGame.undo_move_pair
      (ChessGame.select_square commitLib preCommitState ⟨0, 3⟩).2).move_history
      = [] ∧
    (ChessGame.undo_move_pair
      (ChessGame.select_square commitLib preCommitState ⟨0, 3⟩).2).position_history
      = [0] :=
  ⟨by decide, by decide, by decide, by decide, by decide, by decide, by decide⟩

/-- C2 (amended): with `engine_is_thinking` false, a commit through
`select_square` followed by `undo_last` restores `position_log` and
`move_log` to their pre-commit contents exactly when *no* prior move
existed; when at least one prior move existed, the pair branch also
removes that prior ply, leaving both logs one entry *shorter* than their
pre-commit contents. -/
theorem c2_amended_theorem {B : Type} (lib : ChessLib B) (s : ChessGame B)
    (sq : Square) (s1 : ChessGame B)
    (hinv : hist_inv s) (hthink : s.thinking = false)
    (h : ChessGame.select_square lib s sq = (true, s1))
    (hpend1 : s1.pending_promotion = none) :
    (s.move_history = [] →
      (ChessGame.undo_move_pair s1).move_history = s.move_history ∧
      (ChessGame.undo_move_pair s1).position_history = s.position_history) ∧
    (s.move_history ≠ [] →
      (ChessGame.undo_move_pair s1).move_history = s.move_history.dropLast ∧
      (ChessGame.undo_move_pair s1).position_history = s.position_history.dropLast) := by
  obtain ⟨m, g2, hmh, hph, hth⟩ := select_square_commit lib s sq s1 h hpend1
  rw [hthink] at hth
  unfold hist_inv at hinv
  constructor
  · intro hnil
    have hlen0 : s.move_history.length = 0 := by rw [hnil]; rfl
    unfold ChessGame.undo_move_pair
    rw [if_neg (by simp [hth])]
    rw [if_neg (by rw [hmh, hnil]; simp)]
    rw [if_pos (by
      constructor
      · rw [hmh]
        simp
      · rw [hph]
        simp only [List.length_append, List.length_cons, List.length_nil]
        omega)]
    constructor
    · show s1.move_history.dropLast = s.move_history
      rw [hmh, hnil]
      simp
    · show s1.position_history.dropLast = s.position_history
      rw [hph]
      simp
  · intro hne
    have hlen1 : 1 ≤ s.move_history.length := List.length_pos.mpr hne
    unfold ChessGame.undo_move_pair
    rw [if_neg (by simp [hth])]
    rw [if_pos (by
      constructor
      · rw [hmh]
        simp only [List.length_append, List.length_cons, List.length_nil]
        omega
      · rw [hph]
        simp only [List.length_append, List.length_cons, List.length_nil]
        omega)]
    constructor
    · show s1.move_history.dropLast.dropLast = s.move_history.dropLast
      rw [hmh]
      simp
    · show s1.position_history.dropLast.dropLast = s.position_history.dropLast
      rw [hph]
      simp

/-- C2 witness: the amended behavior at a concrete commit with no prior
move — undo restores both logs exactly. -/
theorem c2_witness :
    emptyPriorState.position_history.length
      = emptyPriorState.move_history.length + 1 ∧
    emptyPriorState.thinking = false ∧
    ChessGame.select_square rookLib emptyPriorState ⟨0, 3⟩
      = (true, emptyPriorCommitted) ∧
    emptyPriorCommitted.pending_promotion = none ∧
    ((ChessGame.undo_move_pair emptyPriorCommitted).move_history
        = emptyPriorState.move_history ∧
      (ChessGame.undo_move_pair emptyPriorCommitted).position_history
        = emptyPriorState.position_history) :=
  ⟨by decide, by decide, by decide, by decide,
    (c2_amended_theorem rookLib emptyPriorState ⟨0, 3⟩ emptyPriorCommitted
      (show emptyPriorState.position_history.length
          = emptyPriorState.move_history.length + 1 by decide)
      (by decide) (by decide) (by decide)).1 (by decide)⟩

/-- C5 counterexample: the character `š` (U+0161) lies outside the files
`a`–`h`, yet `make_engine_move` on the string `š1a4x` *commits* a move
(returns `true` and extends `move_log`): the cast to `u8` truncates U+0161
to `0x61 = a`, so the out-of-range coordinate is accepted as the file `a`
instead of being rejected. -/
theorem c5_counterexample :
    4 ≤ utf8Len ("š1a4x") ∧
    ("š1a4x").data[0]? = some 'š' ∧
    ¬(('a').toNat ≤ ('š').toNat ∧ ('š').toNat ≤ ('h').toNat) ∧
    (ChessGame.make_engine_move rookLib rookStart ("š1a4x")).map Prod.fst
      = some true ∧
    (ChessGame.make_engine_move rookLib rookStart ("š1a4x")).map
      (fun r => r.2.move_history.length) = some 1 :=
  ⟨by decide, by decide, by decide, by decide, by decide⟩

/-- C5 (amended): for *ASCII* input strings the claim holds — a string
shorter than 4 bytes, or one of the four coordinate characters outside the
files `a`–`h` or ranks `1`–`8`, makes `make_engine_move` return `false`
with no state change and no abort.  (For non-ASCII input the byte-length
guard, the character-indexed reads and the truncating `u8` cast diverge
from the claim: a character whose low byte is an in-range coordinate is
accepted, and a string of four or more bytes but fewer than four
characters panics.) -/
theorem c5_amended_theorem {B : Type} (lib : ChessLib B) (s : ChessGame B)
    (uci : String) (hascii : ∀ c ∈ uci.data, c.toNat < 128) :
    (utf8Len uci < 4 → ChessGame.make_engine_move lib s uci = some (false, s)) ∧
    (∀ c0 c1 c2 c3,
      uci.data[0]? = some c0 → uci.data[1]? = some c1 →
      uci.data[2]? = some c2 → uci.data[3]? = some c3 →
      (¬(('a').toNat ≤ c0.toNat ∧ c0.toNat ≤ ('h').toNat) ∨
       ¬(('1').toNat ≤ c1.toNat ∧ c1.toNat ≤ ('8').toNat) ∨
       ¬(('a').toNat ≤ c2.toNat ∧ c2.toNat ≤ ('h').toNat) ∨
       ¬(('1').toNat ≤ c3.toNat ∧ c3.toNat ≤ ('8').toNat)) →
      ChessGame.make_engine_move lib s uci = some (false, s)) := by
  constructor
  · intro hlen
    unfold ChessGame.make_engine_move
    rw [if_pos hlen]
  · intro c0 c1 c2 c3 h0 h1 h2 h3 hout
    by_cases hlen : utf8Len uci < 4
    · unfold ChessGame.make_engine_move
      rw [if_pos hlen]
    · have a0 : c0.toNat < 128 := hascii c0 (List.getElem?_mem h0)
      have a1 : c1.toNat < 128 := hascii c1 (List.getElem?_mem h1)
      have a2 : c2.toNat < 128 := hascii c2 (List.getElem?_mem h2)
      have a3 : c3.toNat < 128 := hascii c3 (List.getElem?_mem h3)
      have e1 : ('a').toNat = 97 := rfl
      have e2 : ('h').toNat = 104 := rfl
      have e3 : ('1').toNat = 49 := rfl
      have e4 : ('8').toNat = 56 := rfl
      rw [e1, e2, e3, e4] at hout
      have hcond : 8 ≤ ChessGame.file_index_of_char c0 ∨
          8 ≤ ChessGame.rank_index_of_char c1 ∨
          8 ≤ ChessGame.file_index_of_char c2 ∨
          8 ≤ ChessGame.rank_index_of_char c3 := by
        unfold ChessGame.file_index_of_char ChessGame.rank_index_of_char
        rcases hout with h' | h' | h' | h'
        · exact Or.inl (by omega)
        · exact Or.inr (Or.inl (by omega))
        · exact Or.inr (Or.inr (Or.inl (by omega)))
        · exact Or.inr (Or.inr (Or.inr (by omega)))
      unfold ChessGame.make_engine_move
      rw [if_neg hlen, h0, h1, h2, h3]
      dsimp only
      rw [if_pos hcond]

/-- C5 witness: the ASCII string `i1a4` has its first character outside
`a`–`h` and is rejected with no state change. -/
theorem c5_witness :
    (∀ c ∈ ("i1a4").data, c.toNat < 128) ∧
    ("i1a4").data[0]? = some 'i' ∧
    ¬(('a').toNat ≤ ('i').toNat ∧ ('i').toNat ≤ ('h').toNat) ∧
    ChessGame.make_engine_move rookLib rookStart ("i1a4")
      = some (false, rookStart) :=
  ⟨by decide, by decide, by decide,
    (c5_amended_theorem rookLib rookStart ("i1a4") (by decide)).2
      'i' '1' 'a' '4' (by decide) (by decide) (by decide) (by decide)
      (Or.inl (by decide))⟩

/-- C7: the load-from-position-string path pre-checks — before handing the
string to the legality library, and *independently of it* — that both
kings are present and no pawn sits on the farthest rank for its own color
(white pawn on the rank-8 row, black pawn on the rank-1 row), rejecting
with a specific error string; and on any failure (pre-check or library
rejection, i.e. whenever `fen_error` is set) the `SetupStartGame` handler
leaves the prior session untouched. -/
theorem c7_theorem (fen : String) :
    (¬((split_ws_list fen.data).headD []).contains 'K' = true →
      ∀ (B : Type) (f : String → Except String B),
        safe_parse_board f fen = .error ("Missing white king (K)")) ∧
    (((split_ws_list fen.data).headD []).contains 'K' = true →
      ¬((split_ws_list fen.data).headD []).contains 'k' = true →
      ∀ (B : Type) (f : String → Except String B),
        safe_parse_board f fen = .error ("Missing black king (k)")) ∧
    (((split_ws_list fen.data).headD []).contains 'K' = true →
      ((split_ws_list fen.data).headD []).contains 'k' = true →
      (split_on_slash ((split_ws_list fen.data).headD [])).length = 8 →
      (((split_on_slash ((split_ws_list fen.data).headD [])).headD []).contains 'P'
          = true ∨
        ((split_on_slash ((split_ws_list fen.data).headD [])).getD 7 []).contains 'p'
          = true) →
      ∃ e, (∀ (B : Type) (f : String → Except String B),
          safe_parse_board f fen = .error e) ∧
        (e = "Pawns cannot be on rank 8" ∨ e = "Pawns cannot be on rank 1")) ∧
    (∀ (B : Type) (lib : ChessLib B) (pc : PColor) (g : ChessGame B) (e : String),
      fen_error lib fen = some e → setup_start_game lib fen pc g = g) := by
  refine ⟨?_, ?_, ?_, ?_⟩
  · intro hK B f
    simp only [Bool.not_eq_true] at hK
    unfold safe_parse_board
    rw [if_pos (by rw [hK]; rfl)]
  · intro hK hk B f
    simp only [Bool.not_eq_true] at hk
    unfold safe_parse_board
    rw [if_neg (by rw [hK]; simp), if_pos (by rw [hk]; rfl)]
  · intro hK hk hlen hpawn
    by_cases hc1 : ((((split_on_slash ((split_ws_list fen.data).headD []))).headD []).contains 'P'
        || (((split_on_slash ((split_ws_list fen.data).headD []))).headD []).contains 'p') = true
    · refine ⟨"Pawns cannot be on rank 8", ?_, Or.inl rfl⟩
      intro B f
      unfold safe_parse_board
      rw [if_neg (by rw [hK]; simp), if_neg (by rw [hk]; simp), if_pos hlen,
        if_pos hc1]
    · refine ⟨"Pawns cannot be on rank 1", ?_, Or.inr rfl⟩
      intro B f
      have hc2 : ((((split_on_slash ((split_ws_list fen.data).headD []))).getD 7 []).contains 'P'
          || (((split_on_slash ((split_ws_list fen.data).headD []))).getD 7 []).contains 'p') = true := by
        rcases hpawn with hp | hp
        · exact absurd (by rw [hp]; rfl) hc1
        · rw [hp]
          simp
      unfold safe_parse_board
      rw [if_neg (by rw [hK]; simp), if_neg (by rw [hk]; simp), if_pos hlen,
        if_neg hc1, if_pos hc2]
  · intro B lib pc g e he
    unfold setup_start_game
    rw [if_pos (by rw [he]; rfl)]

/-- C7 witness: a position-string with no white king is rejected by the
pre-check with the specific message, for any library parse, and the
handler retains the prior session. -/
theorem c7_witness :
    ¬((split_ws_list ("8/8/8/8/8/8/8/8 w - - 0 1").data).headD []).contains 'K'
        = true ∧
    safe_parse_board rookLib.fromStrE ("8/8/8/8/8/8/8/8 w - - 0 1")
      = .error ("Missing white king (K)") ∧
    fen_error rookLib ("8/8/8/8/8/8/8/8 w - - 0 1")
      = some ("Missing white king (K)") ∧
    setup_start_game rookLib ("8/8/8/8/8/8/8/8 w - - 0 1") PColor.White rookStart
      = rookStart :=
  ⟨by decide,
    (c7_theorem ("8/8/8/8/8/8/8/8 w - - 0 1")).1 (by decide) Nat rookLib.fromStrE,
    by decide,
    (c7_theorem ("8/8/8/8/8/8/8/8 w - - 0 1")).2.2.2 Nat rookLib PColor.White
      rookStart ("Missing white king (K)") (by decide)⟩

theorem perm_all_eq {α : Type} (p : α → Bool) {l₁ l₂ : List α} (h : l₁.Perm l₂) :
    l₁.all p = l₂.all p := by
  by_cases h1 : l₁.all p = true
  · rw [h1]
    symm
    rw [List.all_eq_true] at h1 ⊢
    exact fun x hx => h1 x (h.mem_iff.mpr hx)
  · have h2 : ¬l₂.all p = true := by
      intro h2
      apply h1
      rw [List.all_eq_true] at h2 ⊢
      exact fun x hx => h2 x (h.mem_iff.mp hx)
    rw [Bool.not_eq_true] at h1 h2
    rw [h1, h2]

theorem disambiguation_string_perm (chess_move : ChessMove)
    {l₁ l₂ : List ChessMove} (h : l₁.Perm l₂) :
    disambiguation_string chess_move l₁ = disambiguation_string chess_move l₂ := by
  have hiso : l₁.isEmpty = l₂.isEmpty := by
    have := h.length_eq
    cases l₁ <;> cases l₂ <;> simp_all
  unfold disambiguation_string
  rw [hiso, perm_all_eq _ h, perm_all_eq _ h]

theorem disambiguation_string_eq_spec (chess_move : ChessMove)
    (cands : List ChessMove) (hne : cands ≠ []) :
    disambiguation_string chess_move cands = spec_disambiguator chess_move cands := by
  have hfb : (cands.all (fun m => m.source.file != chess_move.source.file) = true)
      ↔ (∀ m ∈ cands, m.source.file ≠ chess_move.source.file) := by
    simp [List.all_eq_true]
  have hrb : (cands.all (fun m => m.source.rank != chess_move.source.rank) = true)
      ↔ (∀ m ∈ cands, m.source.rank ≠ chess_move.source.rank) := by
    simp [List.all_eq_true]
  unfold disambiguation_string spec_disambiguator
  rw [if_neg (by simp [hne])]
  by_cases hf : ∀ m ∈ cands, m.source.file ≠ chess_move.source.file
  · rw [if_pos (hfb.mpr hf), if_pos hf]
  · rw [if_neg (fun hc => hf (hfb.mp hc)), if_neg hf]
    by_cases hr : ∀ m ∈ cands, m.source.rank ≠ chess_move.source.rank
    · rw [if_pos (hrb.mpr hr), if_pos hr]
    · rw [if_neg (fun hc => hr (hrb.mp hc)), if_neg hr]

theorem move_to_details_notation_disambig {B : Type} (lib : ChessLib B)
    (chess_move : ChessMove) (board : B) (side : PColor) (p : Piece)
    (hp : lib.pieceOn board chess_move.source = some p)
    (hkind : p ≠ Piece.Pawn ∧ p ≠ Piece.King) :
    (move_to_details lib chess_move board side).notationText
      = piece_letter p
        ++ disambiguation_string chess_move
            (same_piece_candidates lib board chess_move p (lib.sideToMove board))
        ++ destination_fragment p ((lib.pieceOn board chess_move.dest).isSome) chess_move
        ++ promotion_suffix chess_move
        ++ check_suffix lib board chess_move := by
  unfold move_to_details
  rw [hp]
  dsimp only
  rw [if_neg (by rintro ⟨hk, -⟩; exact hkind.2 hk),
    if_neg (by rintro ⟨hk, -⟩; exact hkind.2 hk),
    if_pos hkind]

theorem move_to_details_perm {B : Type} (lib lib' : ChessLib B)
    (chess_move : ChessMove) (board : B) (side : PColor)
    (hperm : ∀ b, (lib.legalMoves b).Perm (lib'.legalMoves b))
    (hpieceOn : lib'.pieceOn = lib.pieceOn) (hcolorOn : lib'.colorOn = lib.colorOn)
    (hside : lib'.sideToMove = lib.sideToMove)
    (hmmn : lib'.makeMoveNew = lib.makeMoveNew)
    (hchk : lib'.checkersCount = lib.checkersCount) :
    move_to_details lib' chess_move board side
      = move_to_details lib chess_move board side := by
  have hc : check_suffix lib' board chess_move = check_suffix lib board chess_move := by
    unfold check_suffix
    rw [hmmn, hchk]
    dsimp only
    rw [← (hperm _).length_eq]
  unfold move_to_details
  rw [hpieceOn, hside]
  cases hpc : lib.pieceOn board chess_move.source with
  | none => rfl
  | some p =>
    dsimp only
    have hd : disambiguation_string chess_move
          (same_piece_candidates lib' board chess_move p (lib.sideToMove board))
        = disambiguation_string chess_move
          (same_piece_candidates lib board chess_move p (lib.sideToMove board)) := by
      refine disambiguation_string_perm chess_move ?_
      unfold same_piece_candidates
      rw [hpieceOn, hcolorOn]
      exact ((hperm board).filter _).symm
    rw [hd, hc]

/-- C9: for a legal Knight/Bishop/Rook/Queen move whose destination is
also reachable by another same-kind same-color piece from a different
source (the candidate list is non-empty), the generated notation is the
piece letter followed by a disambiguator chosen by the spec rule — source
file letter if no candidate shares the mover's file, else source rank
digit if no candidate shares the mover's rank, else both — followed by the
destination fragment, promotion suffix and check suffix; and the generated
details depend only on the *set* of legal moves (any library enumerating a
permutation of the same legal moves, with the same board primitives,
yields identical details). -/
theorem c9_theorem {B : Type} (lib lib' : ChessLib B) (board : B)
    (chess_move : ChessMove) (side : PColor) (p : Piece)
    (hp : lib.pieceOn board chess_move.source = some p)
    (hkind : p = Piece.Knight ∨ p = Piece.Bishop ∨ p = Piece.Rook ∨ p = Piece.Queen)
    (hcands : same_piece_candidates lib board chess_move p (lib.sideToMove board) ≠ [])
    (hperm : ∀ b, (lib.legalMoves b).Perm (lib'.legalMoves b))
    (hpieceOn : lib'.pieceOn = lib.pieceOn) (hcolorOn : lib'.colorOn = lib.colorOn)
    (hside : lib'.sideToMove = lib.sideToMove)
    (hmmn : lib'.makeMoveNew = lib.makeMoveNew)
    (hchk : lib'.checkersCount = lib.checkersCount) :
    (move_to_details lib chess_move board side).notationText
      = piece_letter p
        ++ spec_disambiguator chess_move
            (same_piece_candidates lib board chess_move p (lib.sideToMove board))
        ++ destination_fragment p ((lib.pieceOn board chess_move.dest).isSome) chess_move
        ++ promotion_suffix chess_move
        ++ check_suffix lib board chess_move ∧
    move_to_details lib' chess_move board side
      = move_to_details lib chess_move board side := by
  have hk2 : p ≠ Piece.Pawn ∧ p ≠ Piece.King := by
    rcases hkind with h | h | h | h <;> subst h <;> exact ⟨by simp, by simp⟩
  constructor
  · rw [move_to_details_notation_disambig lib chess_move board side p hp hk2,
      disambiguation_string_eq_spec _ _ hcands]
  · exact move_to_details_perm lib lib' chess_move board side hperm hpieceOn
      hcolorOn hside hmmn hchk

/-- C9 witness: two white rooks on a1 and h1 both reaching d1 — the move
a1-d1 gets file disambiguation, producing `Rad1`, and the details are
enumeration-order independent. -/
theorem c9_witness :
    twoRooksLib.pieceOn 0 (Square.mk 0 0) = some Piece.Rook ∧
    same_piece_candidates twoRooksLib 0
        { source := ⟨0, 0⟩, dest := ⟨3, 0⟩, promotion := none } Piece.Rook
        (twoRooksLib.sideToMove 0) ≠ [] ∧
    ((move_to_details twoRooksLib
        { source := ⟨0, 0⟩, dest := ⟨3, 0⟩, promotion := none } 0
        PColor.White).notationText
      = piece_letter Piece.Rook
        ++ spec_disambiguator
            { source := ⟨0, 0⟩, dest := ⟨3, 0⟩, promotion := none }
            (same_piece_candidates twoRooksLib 0
              { source := ⟨0, 0⟩, dest := ⟨3, 0⟩, promotion := none } Piece.Rook
              (twoRooksLib.sideToMove 0))
        ++ destination_fragment Piece.Rook
            ((twoRooksLib.pieceOn 0 (Square.mk 3 0)).isSome)
            { source := ⟨0, 0⟩, dest := ⟨3, 0⟩, promotion := none }
        ++ promotion_suffix { source := ⟨0, 0⟩, dest := ⟨3, 0⟩, promotion := none }
        ++ check_suffix twoRooksLib 0
            { source := ⟨0, 0⟩, dest := ⟨3, 0⟩, promotion := none } ∧
      move_to_details twoRooksLib
          { source := ⟨0, 0⟩, dest := ⟨3, 0⟩, promotion := none } 0 PColor.White
        = move_to_details twoRooksLib
          { source := ⟨0, 0⟩, dest := ⟨3, 0⟩, promotion := none } 0 PColor.White) ∧
    (move_to_details twoRooksLib
        { source := ⟨0, 0⟩, dest := ⟨3, 0⟩, promotion := none } 0
        PColor.White).notationText = "Rad1" :=
  ⟨by decide, by decide,
    c9_theorem twoRooksLib twoRooksLib 0
      { source := ⟨0, 0⟩, dest := ⟨3, 0⟩, promotion := none } PColor.White
      Piece.Rook (by decide) (Or.inr (Or.inr (Or.inl rfl))) (by decide)
      (fun b => List.Perm.refl _) rfl rfl rfl rfl rfl,
    by decide⟩

theorem split_ws_list_ws_append (ws l : List Char)
    (h : ∀ c ∈ ws, is_ws c = true) :
    split_ws_list (ws ++ l) = split_ws_list l := by
  induction ws with
  | nil => rfl
  | cons c cs ih =>
    have hc : is_ws c = true := h c (List.mem_cons_self c cs)
    show split_ws_list (c :: (cs ++ l)) = _
    rw [split_ws_list.eq_def]
    dsimp only
    rw [if_pos hc]
    exact ih (fun d hd => h d (List.mem_cons_of_mem c hd))

theorem split_ws_list_token : ∀ (t rest : List Char), t ≠ [] →
    (∀ c ∈ t, is_ws c = false) →
    (∀ d, rest.head? = some d → is_ws d = true) →
    split_ws_list (t ++ rest) = t :: split_ws_list rest := by
  intro t
  induction t with
  | nil =>
    intro rest h
    exact absurd rfl h
  | cons c cs ih =>
    intro rest _ hall hrest
    have hc : is_ws c = false := hall c (List.mem_cons_self c cs)
    cases cs with
    | nil =>
      show split_ws_list (c :: rest) = [c] :: split_ws_list rest
      cases rest with
      | nil =>
        rw [split_ws_list.eq_def]
        dsimp only
        rw [if_neg (by simp [hc])]
        rfl
      | cons d ds =>
        have hd : is_ws d = true := hrest d rfl
        rw [split_ws_list.eq_def]
        dsimp only
        rw [if_neg (by simp [hc])]
        rw [if_pos hd]
    | cons c2 cs2 =>
      have hc2 : is_ws c2 = false := hall c2 (by simp)
      have ihr : split_ws_list ((c2 :: cs2) ++ rest)
          = (c2 :: cs2) :: split_ws_list rest :=
        ih rest (by simp) (fun d hd => hall d (List.mem_cons_of_mem c hd)) hrest
      rw [List.cons_append] at ihr
      show split_ws_list (c :: ((c2 :: cs2) ++ rest))
        = (c :: c2 :: cs2) :: split_ws_list rest
      rw [split_ws_list.eq_def]
      dsimp only
      rw [if_neg (by simp [hc])]
      simp only [List.cons_append]
      rw [ihr]
      rw [if_neg (by simp [hc2])]

/-- C6 counterexample: the line `bestmoveX e2e4` does *not* match
`^bestmove\s+(\S+)` (the character after the marker is `X`, not
whitespace), yet the reader pushes `e2e4` for it — lines whose first token
merely begins with `bestmove` are not ignored. -/
theorem c6_counterexample :
    process_engine_line ("bestmoveX e2e4") = some ("e2e4") ∧
    bestmove_regex_capture ("bestmoveX e2e4") = none :=
  ⟨by decide, by decide⟩

/-- C6 (amended): every line matching `^bestmove\s+(\S+)` has its capture
(the second whitespace-delimited token) pushed; but the code's test is
`starts_with("bestmove")` plus a token count, so the pushed lines are
exactly those whose *text* begins with `bestmove` and which split into at
least two whitespace tokens — including lines such as `bestmoveX e2e4`
whose first token strictly extends the marker — and the pushed string is
always the second token. -/
theorem c6_amended_theorem (line : String) (mv : String) :
    (bestmove_regex_capture line = some mv → process_engine_line line = some mv) ∧
    (process_engine_line line = some mv →
      ("bestmove").data.isPrefixOf line.data = true ∧
      2 ≤ (split_whitespace line).length ∧
      mv = (split_whitespace line).getD 1 "") := by
  constructor
  · intro h
    unfold bestmove_regex_capture at h
    split at h
    case isFalse => exact absurd h (by simp)
    case isTrue hpre =>
      dsimp only at h
      split at h
      case isTrue => exact absurd h (by simp)
      case isFalse hws =>
        split at h
        case isTrue => exact absurd h (by simp)
        case isFalse htok =>
          injection h with h
          obtain ⟨tail, htail⟩ : ∃ tail, ("bestmove").data ++ tail = line.data := by
            rw [List.isPrefixOf_iff_prefix] at hpre
            exact hpre
          have hdrop : line.data.drop 8 = tail := by
            rw [← htail]
            exact List.drop_left ("bestmove").data tail
          rw [hdrop] at hws htok h
          have hwsne : tail.takeWhile (fun c => is_ws c) ≠ [] := by
            simpa [List.isEmpty_iff] using hws
          have htokne : (tail.dropWhile (fun c => is_ws c)).takeWhile
              (fun c => !is_ws c) ≠ [] := by
            simpa [List.isEmpty_iff] using htok
          have hheadtail : ∀ d, tail.head? = some d → is_ws d = true := by
            intro d hd
            have := List.takeWhile_append_dropWhile (fun c => is_ws c) tail
            cases hcase : tail.takeWhile (fun c => is_ws c) with
            | nil => exact absurd hcase hwsne
            | cons w ws' =>
              have hw : w ∈ tail.takeWhile (fun c => is_ws c) := by
                rw [hcase]
                exact List.mem_cons_self w ws'
              have hwws : is_ws w = true := List.mem_takeWhile_imp hw
              rw [← this, hcase] at hd
              simp only [List.cons_append, List.head?_cons, Option.some.injEq] at hd
              rw [← hd]
              exact hwws
          have e0 : split_ws_list line.data
              = ("bestmove").data :: split_ws_list tail := by
            rw [← htail]
            exact split_ws_list_token _ tail (by decide) (by decide) hheadtail
          have e1 : split_ws_list tail
              = split_ws_list (tail.dropWhile (fun c => is_ws c)) := by
            conv_lhs => rw [← List.takeWhile_append_dropWhile (fun c => is_ws c) tail]
            exact split_ws_list_ws_append _ _
              (fun d hd => List.mem_takeWhile_imp hd)
          have e2 : split_ws_list (tail.dropWhile (fun c => is_ws c))
              = (tail.dropWhile (fun c => is_ws c)).takeWhile (fun c => !is_ws c)
                :: split_ws_list ((tail.dropWhile (fun c => is_ws c)).dropWhile
                    (fun c => !is_ws c)) := by
            conv_lhs => rw [← List.takeWhile_append_dropWhile (fun c => !is_ws c)
              (tail.dropWhile (fun c => is_ws c))]
            refine split_ws_list_token _ _ htokne ?_ ?_
            · intro d hd
              have := List.mem_takeWhile_imp hd
              simpa using this
            · intro d hd
              have h2 := List.head?_dropWhile_not (fun c => !is_ws c)
                (tail.dropWhile (fun c => is_ws c))
              rw [hd] at h2
              simpa using h2
          unfold process_engine_line
          rw [if_pos hpre]
          dsimp only
          unfold split_whitespace
          rw [e0, e1, e2]
          simp only [List.map_cons]
          rw [if_pos (by simp)]
          rw [← h]
          simp [List.getD]
  · intro h
    unfold process_engine_line at h
    split at h
    case isFalse => exact absurd h (by simp)
    case isTrue hpre =>
      dsimp only at h
      split at h
      case isTrue hlen =>
        injection h with h
        exact ⟨hpre, hlen, h.symm⟩
      case isFalse => exact absurd h (by simp)

/-- C6 witness: the regex-matching line `bestmove e2e4` has its capture
`e2e4` pushed. -/
theorem c6_witness :
    bestmove_regex_capture ("bestmove e2e4") = some ("e2e4") ∧
    process_engine_line ("bestmove e2e4") = some ("e2e4") :=
  ⟨by decide,
    (c6_amended_theorem ("bestmove e2e4") ("e2e4")).1 (by decide)⟩

end ChessPlayer
